import Mathlib

/-!
# Verification of the `ent` blob store core

A shallow embedding of the storage engine of the `ent` repository: the
disk-backed `FileSystem` (`Create` / `Open` / `Delete` / `List` with
temporary-file based atomic publication), the in-memory `MemoryFS`, the
SHA-1 hashing file handles, and the listing sort strategies, together with
theorems settling the specification claims about them.

Conventions of the embedding:
* Byte contents are `List Nat` (each element a byte value).
* Go `string` values are Lean `String`; Go compares strings byte-wise and
  UTF-8 byte order coincides with code-point order, so character-level
  comparisons are observationally equivalent.
* Timestamps (`time.Time`) are `Int` instants; `Before`/`After` are `<`/`>`.
* Fallible operations return `Except EntError`; I/O faults that the code
  can encounter (disk full, failed rename, ...) are injected explicitly
  through a `CreateFault` parameter where a claim concerns failure paths.
-/

/-- Decidable equality for `Except` results, used to evaluate the model on
concrete inputs. -/
instance {ε α : Type} [DecidableEq ε] [DecidableEq α] : DecidableEq (Except ε α)
  | Except.ok a, Except.ok b =>
    decidable_of_iff (a = b) ⟨fun h => by rw [h], fun h => by injection h⟩
  | Except.ok _, Except.error _ => isFalse (fun h => Except.noConfusion h)
  | Except.error _, Except.ok _ => isFalse (fun h => Except.noConfusion h)
  | Except.error a, Except.error b =>
    decidable_of_iff (a = b) ⟨fun h => by rw [h], fun h => by injection h⟩

/-- Error kinds of the `ent` package (`lib/error.go`): the named sentinel
errors plus an opaque class for wrapped I/O failures. -/
inductive EntError where
  | bucketNotFound
  | fileNotFound
  | invalidParam
  | other (msg : String)
deriving DecidableEq, Repr

/-- A bucket (`lib/bucket.go`): a named partition.  The `id` field models
Go pointer identity of `*Bucket` (the in-memory `FileSystem` keys its map
by the pointer, not by the name). -/
structure Bucket where
  id : Nat
  name : String
deriving DecidableEq, Repr

/-! ## Character-level string utilities

Faithful, kernel-computable models of the Go standard library string and
path helpers the storage engine uses (`strings.HasPrefix`,
`strings.TrimPrefix`, `strings.Split`, `filepath.Clean`, `filepath.Join`,
`filepath.Dir`).  They operate on the character list underlying a
`String`; Go operates on UTF-8 bytes, and byte-wise prefix tests and
lexicographic comparisons agree with the character-wise ones. -/

/-- `strings.HasPrefix s p`. -/
def strStartsWith (s p : String) : Bool :=
  p.data.isPrefixOf s.data

/-- `strings.TrimPrefix s p`: drop the leading `p` when present. -/
def stripLeading (s p : String) : String :=
  if strStartsWith s p then String.mk (s.data.drop p.data.length) else s

/-- Split a character list at every occurrence of `c`. -/
def splitCharsOn (c : Char) : List Char → List (List Char)
  | [] => [[]]
  | x :: xs =>
    let r := splitCharsOn c xs
    if x = c then [] :: r
    else
      match r with
      | h :: t => (x :: h) :: t
      | [] => [[x]]

/-- `strings.Split s "/"`. -/
def splitSlash (s : String) : List String :=
  (splitCharsOn '/' s.data).map String.mk

/-- Join path segments with `/` separators. -/
def joinSlash (parts : List String) : String :=
  String.mk (List.intercalate ['/'] (parts.map String.data))

/-- Go's byte-wise string comparison `a < b` (lexicographic). -/
def charListLt : List Char → List Char → Bool
  | [], [] => false
  | [], _ :: _ => true
  | _ :: _, [] => false
  | a :: as, b :: bs =>
    if a.toNat < b.toNat then true
    else if b.toNat < a.toNat then false
    else charListLt as bs

/-- Go `a < b` on strings. -/
def goStrLt (a b : String) : Bool := charListLt a.data b.data

/-- Go `a >= b` on strings (total byte order: `a >= b ↔ ¬ a < b`). -/
def goStrGe (a b : String) : Bool := !(goStrLt a b)

/-- Go `a <= b` on strings. -/
def goStrLe (a b : String) : Bool := !(goStrLt b a)

/-- The segment-stack pass of `filepath.Clean`: drop empty and `.`
segments, resolve `..` against the stack (keeping leading `..` for
relative paths, discarding it for absolute ones). -/
def cleanSegs (abs : Bool) (stack : List String) : List String → List String
  | [] => stack.reverse
  | seg :: rest =>
    if seg = "" ∨ seg = "." then cleanSegs abs stack rest
    else if seg = ".." then
      match stack with
      | [] => if abs then cleanSegs abs [] rest else cleanSegs abs [".."] rest
      | top :: stack' =>
        if top = ".." then cleanSegs abs (".." :: top :: stack') rest
        else cleanSegs abs stack' rest
    else cleanSegs abs (seg :: stack) rest

/-- `filepath.Clean` for slash-separated paths. -/
def cleanPath (s : String) : String :=
  let abs := strStartsWith s "/"
  let body := joinSlash (cleanSegs abs [] (splitSlash s))
  if abs then "/" ++ body
  else if body = "" then "." else body

/-- `filepath.Join`: join the non-empty elements with `/` and clean the
result; all elements empty yields `""`. -/
def goJoin (elems : List String) : String :=
  let joined := joinSlash (elems.filter (fun e => e ≠ ""))
  if joined = "" then "" else cleanPath joined

/-- `filepath.Dir`: everything but the last path element, cleaned. -/
def goDir (p : String) : String :=
  let segs := splitSlash p
  if segs.length ≤ 1 then "."
  else cleanPath ((if strStartsWith p "/" then "/" else "") ++ joinSlash segs.dropLast)

/-! ## SHA-1 (`crypto/sha1`)

A byte-level implementation of SHA-1 used by the file handles'
incremental digest accumulator.  Words are `Nat` values kept below
`2 ^ 32` by explicit reduction. -/

/-- Rotate a 32-bit word left by `n` bits. -/
def rotl32 (n x : Nat) : Nat :=
  ((x <<< n) ||| (x >>> (32 - n))) % 2 ^ 32

/-- The SHA-1 round function for round `t`. -/
def sha1F (t b c d : Nat) : Nat :=
  if t < 20 then (b &&& c) ||| (((2 ^ 32 - 1) ^^^ b) &&& d)
  else if t < 40 then b ^^^ c ^^^ d
  else if t < 60 then (b &&& c) ||| (b &&& d) ||| (c &&& d)
  else b ^^^ c ^^^ d

/-- The SHA-1 round constant for round `t`. -/
def sha1K (t : Nat) : Nat :=
  if t < 20 then 0x5A827999
  else if t < 40 then 0x6ED9EBA1
  else if t < 60 then 0x8F1BBCDC
  else 0xCA62C1D6

/-- Big-endian bytes of a 32-bit word. -/
def toBE32 (w : Nat) : List Nat :=
  [w / 2 ^ 24 % 256, w / 2 ^ 16 % 256, w / 2 ^ 8 % 256, w % 256]

/-- Big-endian bytes of a 64-bit value. -/
def toBE64 (n : Nat) : List Nat :=
  (List.range 8).map (fun i => n / 2 ^ (8 * (7 - i)) % 256)

/-- SHA-1 message padding: append `0x80`, zero bytes up to 56 mod 64, then
the big-endian 64-bit bit length. -/
def sha1Pad (msg : List Nat) : List Nat :=
  let len := msg.length
  let k := (64 + 56 - ((len + 1) % 64)) % 64
  msg ++ [0x80] ++ List.replicate k 0 ++ toBE64 (8 * len)

/-- Split a byte list into 64-byte blocks (fuelled by the list length so
that the recursion is structural and kernel-reducible). -/
def chunksGo : Nat → List Nat → List (List Nat)
  | _, [] => []
  | 0, _ :: _ => []
  | fuel + 1, a :: l => ((a :: l).take 64) :: chunksGo fuel ((a :: l).drop 64)

/-- Split a byte list into 64-byte blocks. -/
def chunks64 (l : List Nat) : List (List Nat) :=
  chunksGo l.length l

/-- Pack consecutive byte quadruples into big-endian 32-bit words. -/
def bytesToWords : List Nat → List Nat
  | a :: b :: c :: d :: rest =>
    (a * 2 ^ 24 + b * 2 ^ 16 + c * 2 ^ 8 + d) :: bytesToWords rest
  | _ => []

/-- Extend the 16 block words to the 80-word message schedule. -/
def sha1Schedule (w16 : List Nat) : List Nat :=
  (List.range 64).foldl
    (fun ws _ =>
      ws ++ [rotl32 1 (ws.getD (ws.length - 3) 0 ^^^ ws.getD (ws.length - 8) 0 ^^^
        ws.getD (ws.length - 14) 0 ^^^ ws.getD (ws.length - 16) 0)])
    w16

/-- One SHA-1 compression step (round `t` with schedule word `wt`). -/
def sha1Step (st : Nat × Nat × Nat × Nat × Nat) (tw : Nat × Nat) :
    Nat × Nat × Nat × Nat × Nat :=
  let (a, b, c, d, e) := st
  let (t, wt) := tw
  let temp := (rotl32 5 a + sha1F t b c d + e + sha1K t + wt) % 2 ^ 32
  (temp, a, rotl32 30 b, c, d)

/-- SHA-1 compression of one 64-byte block into the running state. -/
def sha1Compress (h : Nat × Nat × Nat × Nat × Nat) (block : List Nat) :
    Nat × Nat × Nat × Nat × Nat :=
  let ws := sha1Schedule (bytesToWords block)
  let (a, b, c, d, e) := ((List.range 80).zip ws).foldl sha1Step h
  ((h.1 + a) % 2 ^ 32, (h.2.1 + b) % 2 ^ 32, (h.2.2.1 + c) % 2 ^ 32,
    (h.2.2.2.1 + d) % 2 ^ 32, (h.2.2.2.2 + e) % 2 ^ 32)

/-- The SHA-1 digest (20 bytes) of a byte sequence. -/
def sha1 (msg : List Nat) : List Nat :=
  let h := (chunks64 (sha1Pad msg)).foldl sha1Compress
    (0x67452301, 0xEFCDAB89, 0x98BADCFE, 0x10325476, 0xC3D2E1F0)
  toBE32 h.1 ++ toBE32 h.2.1 ++ toBE32 h.2.2.1 ++ toBE32 h.2.2.2.1 ++ toBE32 h.2.2.2.2

/-! ## File handles (`fs.go`: `file`, `newFile`, `Write`, `Hash`)

The disk `file` struct wraps an `*os.File` (modelled by its byte content
and read/write offset) together with an incremental `crypto/sha1`
accumulator (`hash`, modelled by the list of bytes absorbed so far) and
the `hashed` byte counter. -/

/-- The `file` struct of the disk engine. -/
structure file where
  hashAcc : List Nat
  hashed : Int
  key : String
  lastModified : Int
  content : List Nat
  pos : Int
deriving DecidableEq, Repr

/-- `file.Write`: absorb `p` into the digest accumulator, bump `hashed`,
then write `p` to the underlying file at the current offset. -/
def fileWrite (f : file) (p : List Nat) : file :=
  { f with
    hashAcc := f.hashAcc ++ p
    hashed := f.hashed + p.length
    content := f.content.take f.pos.toNat ++ p ++ f.content.drop (f.pos.toNat + p.length)
    pos := f.pos + p.length }

/-- `file.Hash` (fault-free): if `hashed` equals the file size, return the
cached digest; otherwise reset, seek to the start, re-absorb the whole
content and return its digest.  Returns the digest with the updated
handle. -/
def fileHash (f : file) : List Nat × file :=
  if f.hashed = (f.content.length : Int) then (sha1 f.hashAcc, f)
  else
    (sha1 f.content,
      { f with hashAcc := f.content, hashed := (f.content.length : Int),
               pos := (f.content.length : Int) })

/-! ## Sort strategies (`lib/sort.go`) -/

/-- The sort parameter vocabulary (`lib/client.go` exported constants and
the `main` package copies): criterion names and order markers. -/
def orderKey : String := "key"

/-- Criterion name for sorting by modification time. -/
def orderLastModified : String := "lastModified"

/-- Order marker for ascending sorts. -/
def orderAscending : String := "+"

/-- Order marker for descending sorts. -/
def orderDescending : String := "-"

/-- The closed set of sort strategies the program constructs:
`noOpStrategy`, `byKey` and `byLastModified`, the latter two carrying the
`isAscending` flag of the embedded `baseSortStrategy`. -/
inductive SortStrategy where
  | noOp
  | byKey (ascending : Bool)
  | byLastModified (ascending : Bool)
deriving DecidableEq, Repr

/-- `byKey.Less` over an element type with a `Key()` projection:
ascending compares with `<`, descending with `>=` (Go byte order). -/
def byKeyLess (keyOf : α → String) (asc : Bool) (a b : α) : Bool :=
  if asc then goStrLt (keyOf a) (keyOf b) else goStrGe (keyOf a) (keyOf b)

/-- `byLastModified.Less`: ascending uses `Before` (`<`), descending
`After` (`>`). -/
def byLastModifiedLess (lmOf : α → Int) (asc : Bool) (a b : α) : Bool :=
  if asc then decide (lmOf a < lmOf b) else decide (lmOf b < lmOf a)

/-- Insert an element into a list ordered by the comparator `less`
(`sort.Sort`'s ordering contract, realised by insertion). -/
def insertLess (less : α → α → Bool) (a : α) : List α → List α
  | [] => [a]
  | b :: l => if less a b then a :: b :: l else b :: insertLess less a l

/-- The denotation of `sort.Sort` with comparator `less`: a comparison
sort that reorders the sequence so adjacent elements respect the
comparator.  (Go's `sort.Sort` is an unstable comparison sort; every
claim proved below depends only on the comparator contract, not on the
particular algorithm.) -/
def sortLess (less : α → α → Bool) : List α → List α
  | [] => []
  | a :: l => insertLess less a (sortLess less l)

/-- `SortStrategy.Sort` dispatched over the strategy, for any element
type with `Key()` and `LastModified()` projections: `noOpStrategy.Sort`
leaves the sequence untouched, the others sort by their `Less`. -/
def SortStrategy.sortFiles (keyOf : α → String) (lmOf : α → Int) :
    SortStrategy → List α → List α
  | .noOp, files => files
  | .byKey asc, files => sortLess (byKeyLess keyOf asc) files
  | .byLastModified asc, files => sortLess (byLastModifiedLess lmOf asc) files

/-- `EncodeParam`: the canonical two-part token of a strategy (empty for
no-op). -/
def SortStrategy.encodeParam : SortStrategy → String
  | .noOp => ""
  | .byKey asc => (if asc then orderAscending else orderDescending) ++ orderKey
  | .byLastModified asc => (if asc then orderAscending else orderDescending) ++ orderLastModified

/-- The criterion switch at the end of `createSortStrategy`. -/
def criterionStrategy (criterion : String) (asc : Bool) : Except EntError SortStrategy :=
  if criterion = orderKey then Except.ok (SortStrategy.byKey asc)
  else if criterion = orderLastModified then Except.ok (SortStrategy.byLastModified asc)
  else Except.error EntError.invalidParam

/-- `createSortStrategy` (`main.go`): decode a sort parameter.  Empty
means no-op; a single character is invalid; otherwise the first character
must be the `+`/`-` order marker and the remainder a known criterion.
(Go slices `value[:1]`/`value[1:]` by bytes; for the byte-length-one test
and the comparisons against the ASCII tokens the character-level model
gives the same verdict on every input.) -/
def createSortStrategy (value : String) : Except EntError SortStrategy :=
  if value = "" then Except.ok SortStrategy.noOp
  else if value.data.length = 1 then Except.error EntError.invalidParam
  else
    let ord := String.mk (value.data.take 1)
    let criterion := String.mk (value.data.drop 1)
    if ord = orderAscending then criterionStrategy criterion true
    else if ord = orderDescending then criterionStrategy criterion false
    else Except.error EntError.invalidParam

/-! ## Association-list primitives for the state models -/

/-- Remove every binding of `k` (deletion from a map). -/
def eraseKey [BEq α] (l : List (α × β)) (k : α) : List (α × β) :=
  l.filter (fun kv => kv.1 != k)

/-- Replace the binding of `k` with `v` (map assignment). -/
def upsertEntry [BEq α] (l : List (α × β)) (k : α) (v : β) : List (α × β) :=
  eraseKey l k ++ [(k, v)]

/-! ## The disk-backed engine (`fs.go`, `diskFS`)

The relevant slice of the host filesystem: a map from absolute path to
regular-file data plus the set of existing directories.  Paths are as the
engine builds them: `<root>/<bucketName>/<key...>`. -/

/-- A regular file on disk: content bytes and modification instant. -/
structure DiskEntry where
  content : List Nat
  modTime : Int
deriving DecidableEq, Repr

/-- The disk state visible to the engine. -/
structure FSState where
  files : List (String × DiskEntry)
  dirs : List String
deriving DecidableEq, Repr

/-- What `os.Stat` reports for a path. -/
inductive StatKind where
  | file
  | dir
  | notExists
deriving DecidableEq, Repr

/-- `os.Stat` on the modelled state: a regular file, a directory, or
`IsNotExist`. -/
def statKind (fsS : FSState) (p : String) : StatKind :=
  if (List.lookup p fsS.files).isSome then StatKind.file
  else if fsS.dirs.contains p then StatKind.dir
  else StatKind.notExists

/-- The directory path of each non-empty segment-wise path primage used by
`os.MkdirAll`: the path itself and all its ancestors. -/
def pathSteps (p : String) : List String :=
  let segs := splitSlash p
  (List.range segs.length).map (fun i => joinSlash (segs.take (i + 1)))

/-- `os.MkdirAll p`: ensure `p` and its ancestors exist as directories. -/
def mkdirAll (fsS : FSState) (p : String) : FSState :=
  { fsS with dirs := fsS.dirs ++ (pathSteps p).filter (fun d => !fsS.dirs.contains d) }

/-- `pathForFile` (`fs.go`): `filepath.Join(fs.root, bucket.Name, key)`. -/
def pathForFile (root : String) (bucket : Bucket) (key : String) : String :=
  goJoin [root, bucket.name, key]

/-- Fault injection points of `diskFS.Create`: every operation the code
checks for an error.  `copyFail n` is an input-stream or write failure
after `n` bytes reached the temporary file. -/
inductive CreateFault where
  | ok
  | mkdirFail
  | tempFail
  | copyFail (n : Nat)
  | renameFail
  | openFail
deriving DecidableEq, Repr

/-- The handle `diskFS.Create` returns on success: the digest accumulator
has absorbed exactly the copied bytes, the handle was reopened on the
destination (offset 0) and stamped with the destination's mtime. -/
def createdFile (key : String) (data : List Nat) (now : Int) : file :=
  { hashAcc := data, hashed := (data.length : Int), key := key,
    lastModified := now, content := data, pos := 0 }

/-- `diskFS.Create`: make the parent directories, write the source to a
fresh `pending-` temporary file inside the bucket directory, rename it
onto the destination, reopen and stamp the handle.  `tmpRand` is the
random suffix `ioutil.TempFile` picks, `now` the current instant, `fault`
which step (if any) fails. -/
def diskCreate (root : String) (fsS : FSState) (bucket : Bucket) (key : String)
    (data : List Nat) (tmpRand : String) (now : Int) (fault : CreateFault) :
    Except EntError file × FSState :=
  let dst := pathForFile root bucket key
  let tmpName := goJoin [root, bucket.name] ++ "/pending-" ++ tmpRand
  let fs1 := mkdirAll fsS (goDir dst)
  let published : FSState :=
    { fs1 with files := upsertEntry (eraseKey fs1.files tmpName) dst ⟨data, now⟩ }
  match fault with
  | CreateFault.mkdirFail => (Except.error (EntError.other "mkdir failed"), fsS)
  | CreateFault.tempFail => (Except.error (EntError.other "temp failed"), fs1)
  | CreateFault.copyFail n =>
    (Except.error (EntError.other "storing failed"),
      { fs1 with files := upsertEntry fs1.files tmpName ⟨data.take n, now⟩ })
  | CreateFault.renameFail =>
    (Except.error (EntError.other "rename failed"),
      { fs1 with files := upsertEntry fs1.files tmpName ⟨data, now⟩ })
  | CreateFault.openFail => (Except.error (EntError.other "open failed"), published)
  | CreateFault.ok => (Except.ok (createdFile key data now), published)

/-- The handle `diskFS.Open` returns: `newFile` around the opened path
(fresh digest accumulator, `lastModified` left at the zero value). -/
def openedFile (key : String) (e : DiskEntry) : file :=
  { hashAcc := [], hashed := 0, key := key, lastModified := 0,
    content := e.content, pos := 0 }

/-- `diskFS.Open`: stat the joined path; `IsNotExist` and directories both
map to `ErrFileNotFound`, a regular file is opened. -/
def diskOpen (root : String) (fsS : FSState) (bucket : Bucket) (key : String) :
    Except EntError file :=
  let path := pathForFile root bucket key
  match List.lookup path fsS.files with
  | some e => Except.ok (openedFile key e)
  | none =>
    if fsS.dirs.contains path then Except.error EntError.fileNotFound
    else Except.error EntError.fileNotFound

/-- Is anything (file or directory) strictly inside directory `p`? -/
def hasChild (fsS : FSState) (p : String) : Bool :=
  fsS.files.any (fun kv => strStartsWith kv.1 (p ++ "/")) ||
    fsS.dirs.any (fun d => strStartsWith d (p ++ "/"))

/-- `diskFS.Delete`: stat the path (`IsNotExist` maps to
`ErrFileNotFound`), then `os.Remove` it (which removes a regular file or
an empty directory and fails on a non-empty one). -/
def diskDelete (root : String) (fsS : FSState) (bucket : Bucket) (key : String) :
    Except EntError Unit × FSState :=
  let p := pathForFile root bucket key
  match statKind fsS p with
  | StatKind.notExists => (Except.error EntError.fileNotFound, fsS)
  | StatKind.file => (Except.ok (), { fsS with files := eraseKey fsS.files p })
  | StatKind.dir =>
    if hasChild fsS p then (Except.error (EntError.other "removal failed"), fsS)
    else (Except.ok (), { fsS with dirs := fsS.dirs.filter (fun d => d != p) })

/-- The handle `listWalk` appends for a matched path: `newFile` with the
key computed by trimming `bucketDir + "/"`, stamped with the mtime. -/
def fileOfEntry (bucketDir : String) (kv : String × DiskEntry) : file :=
  { hashAcc := [], hashed := 0, key := stripLeading kv.1 (bucketDir ++ "/"),
    lastModified := kv.2.modTime, content := kv.2.content, pos := 0 }

/-- The files `filepath.Walk(bucketDir, listWalk(..))` collects: every
regular file in the subtree whose path has the `prefixGlob` string
prefix. -/
def listWalkFiles (fsS : FSState) (bucketDir glob : String) : List file :=
  (fsS.files.filter
    (fun kv => strStartsWith kv.1 (bucketDir ++ "/") && strStartsWith kv.1 glob)).map
    (fileOfEntry bucketDir)

/-- `diskFS.List`: a missing bucket directory is an empty result; walk
the bucket directory matching paths against
`filepath.Join(bucketDir, prefix)`, sort by the strategy, truncate to
`limit`. -/
def diskList (root : String) (fsS : FSState) (bucket : Bucket) (pfx : String)
    (limit : Nat) (strat : SortStrategy) : Except EntError (List file) :=
  let bucketDir := goJoin [root, bucket.name]
  let glob := goJoin [bucketDir, pfx]
  if statKind fsS bucketDir = StatKind.notExists then Except.ok []
  else
    let sorted := SortStrategy.sortFiles file.key file.lastModified strat
      (listWalkFiles fsS bucketDir glob)
    Except.ok (if limit < sorted.length then sorted.take limit else sorted)

/-- `DefaultLimit` (`lib/client.go` / `main.go`): `math.MaxUint64`. -/
def DefaultLimit : Nat := 2 ^ 64 - 1

/-! ## The in-memory engine (`lib/fs.go`, `MemoryFS` / `MemoryFile`) -/

/-- `MemoryFile`: a buffer with an incremental digest, an offset, the key
and the creation instant. -/
structure MemoryFile where
  buffer : List Nat
  hashAcc : List Nat
  index : Int
  key : String
  time : Int
deriving DecidableEq, Repr

/-- `MemoryFile.Write`: absorb into the digest, append to the buffer, set
the offset to the buffer length. -/
def memWrite (f : MemoryFile) (b : List Nat) : MemoryFile :=
  { f with hashAcc := f.hashAcc ++ b, buffer := f.buffer ++ b,
           index := ((f.buffer ++ b).length : Int) }

/-- `MemoryFile.Hash`: the digest of the bytes absorbed so far (never
fails, no size check). -/
def memHash (f : MemoryFile) : List Nat := sha1 f.hashAcc

/-- `MemoryFS`: a map from bucket (by pointer identity, modelled by
`Bucket.id`) to a map from key to file.  Go map iteration order is
unspecified; the association-list order stands in for it. -/
abbrev MemoryFS := List (Nat × List (String × MemoryFile))

/-- `MemoryFS.Create`: build a fresh `MemoryFile`, copy the source into
it, and store it under its key (creating the bucket map if needed). -/
def memCreate (fs : MemoryFS) (bucket : Bucket) (key : String)
    (data : List Nat) (now : Int) : Except EntError MemoryFile × MemoryFS :=
  let f := memWrite { buffer := [], hashAcc := [], index := 0, key := key, time := now } data
  let bmap := match List.lookup bucket.id fs with
    | some m => m
    | none => []
  (Except.ok f, upsertEntry fs bucket.id (upsertEntry bmap f.key f))

/-- `MemoryFS.Delete`: a missing bucket is success; otherwise delete the
key from the bucket map (also success, present or not). -/
def memDelete (fs : MemoryFS) (bucket : Bucket) (key : String) :
    Except EntError Unit × MemoryFS :=
  match List.lookup bucket.id fs with
  | none => (Except.ok (), fs)
  | some m => (Except.ok (), upsertEntry fs bucket.id (eraseKey m key))

/-- `MemoryFS.Open`: `ErrFileNotFound` when the bucket or the key is
absent. -/
def memOpen (fs : MemoryFS) (bucket : Bucket) (key : String) :
    Except EntError MemoryFile :=
  match List.lookup bucket.id fs with
  | none => Except.error EntError.fileNotFound
  | some m =>
    match List.lookup key m with
    | none => Except.error EntError.fileNotFound
    | some f => Except.ok f

/-- `MemoryFS.List`: a missing bucket is an empty result; keep the files
whose key has the prefix, sort, truncate to `limit`. -/
def memList (fs : MemoryFS) (bucket : Bucket) (pfx : String) (limit : Nat)
    (strat : SortStrategy) : Except EntError (List MemoryFile) :=
  match List.lookup bucket.id fs with
  | none => Except.ok []
  | some m =>
    let sorted := SortStrategy.sortFiles MemoryFile.key MemoryFile.time strat
      ((m.filter (fun kv => strStartsWith kv.1 pfx)).map (fun kv => kv.2))
    Except.ok (if limit < sorted.length then sorted.take limit else sorted)

/-! ## Helper lemmas -/

theorem lookup_append {α β : Type} [BEq α] (l₁ l₂ : List (α × β)) (k : α) :
    List.lookup k (l₁ ++ l₂) = (List.lookup k l₁).orElse (fun _ => List.lookup k l₂) := by
  induction l₁ with
  | nil => simp [List.lookup, Option.orElse]
  | cons kv l₁ ih =>
    obtain ⟨a, b⟩ := kv
    simp only [List.cons_append, List.lookup]
    cases k == a with
    | true => simp [Option.orElse]
    | false => simpa using ih

theorem lookup_eraseKey_self {α β : Type} [BEq α] [LawfulBEq α]
    (l : List (α × β)) (k : α) : List.lookup k (eraseKey l k) = none := by
  induction l with
  | nil => rfl
  | cons kv l ih =>
    obtain ⟨a, b⟩ := kv
    by_cases ha : a = k
    · simpa [eraseKey, List.filter, ha] using ih
    · have h1 : (a != k) = true := by simp [ha]
      have h2 : (k == a) = false := by simp [bne_iff_ne, Ne.symm ha]
      simpa [eraseKey, List.filter, h1, List.lookup, h2] using ih

theorem lookup_eraseKey_ne {α β : Type} [BEq α] [LawfulBEq α]
    (l : List (α × β)) (k j : α) (h : k ≠ j) :
    List.lookup k (eraseKey l j) = List.lookup k l := by
  induction l with
  | nil => rfl
  | cons kv l ih =>
    obtain ⟨a, b⟩ := kv
    by_cases ha : a = j
    · have haj : (a != j) = false := by simp [ha]
      have hka : (k == a) = false := by simp [ha]; exact h
      simp only [eraseKey, List.filter_cons, haj, Bool.false_eq_true, if_false,
        List.lookup, hka]
      exact ih
    · have haj : (a != j) = true := by simp [ha]
      simp only [eraseKey, List.filter_cons, haj, if_true, List.lookup]
      cases hka : (k == a) with
      | true => rfl
      | false => exact ih

theorem lookup_upsert_self {α β : Type} [BEq α] [LawfulBEq α]
    (l : List (α × β)) (k : α) (v : β) :
    List.lookup k (upsertEntry l k v) = some v := by
  simp [upsertEntry, lookup_append, lookup_eraseKey_self, Option.orElse, List.lookup]

theorem lookup_upsert_ne {α β : Type} [BEq α] [LawfulBEq α]
    (l : List (α × β)) (j : α) (v : β) (k : α) (h : k ≠ j) :
    List.lookup k (upsertEntry l j v) = List.lookup k l := by
  have h2 : (k == j) = false := by simpa using h
  rw [upsertEntry, lookup_append, lookup_eraseKey_ne l k j h]
  cases hl : List.lookup k l with
  | none => simp [Option.orElse, List.lookup, h2]
  | some w => simp [Option.orElse]

theorem eraseKey_of_lookup_none {α β : Type} [BEq α] [LawfulBEq α]
    (l : List (α × β)) (k : α) (h : List.lookup k l = none) : eraseKey l k = l := by
  induction l with
  | nil => rfl
  | cons kv l ih =>
    obtain ⟨a, b⟩ := kv
    simp only [List.lookup] at h
    cases hk : (k == a) with
    | true => simp [hk] at h
    | false =>
      simp only [hk] at h
      have ha : (a != k) = true := by
        simp only [bne_iff_ne]
        intro hak
        simp [hak] at hk
      simp only [eraseKey, List.filter_cons, ha, if_true, List.cons.injEq]
      exact ⟨trivial, ih h⟩

theorem perm_insertLess {α : Type} (less : α → α → Bool) (a : α) (l : List α) :
    (insertLess less a l).Perm (a :: l) := by
  induction l with
  | nil => simp [insertLess]
  | cons b l ih =>
    cases hc : less a b with
    | true => simp [insertLess, hc]
    | false =>
      simp only [insertLess, hc, Bool.false_eq_true, if_false]
      exact (ih.cons b).trans (List.Perm.swap a b l)

theorem perm_sortLess {α : Type} (less : α → α → Bool) (l : List α) :
    (sortLess less l).Perm l := by
  induction l with
  | nil => simp [sortLess]
  | cons a l ih => exact (perm_insertLess less a (sortLess less l)).trans (ih.cons a)

theorem chain'_insertLess {α : Type} (less : α → α → Bool) (R : α → α → Prop)
    (h1 : ∀ a b, less a b = true → R a b) (h2 : ∀ a b, less a b = false → R b a)
    (a : α) : ∀ l : List α, l.Chain' R → (insertLess less a l).Chain' R := by
  intro l
  induction l with
  | nil => intro _; simp [insertLess]
  | cons b l ih =>
    intro hl
    cases hc : less a b with
    | true =>
      simp only [insertLess, hc, if_true]
      exact List.chain'_cons.mpr ⟨h1 a b hc, hl⟩
    | false =>
      simp only [insertLess, hc, Bool.false_eq_true, if_false]
      have hl' : l.Chain' R := (List.chain'_cons'.mp hl).2
      refine List.chain'_cons'.mpr ⟨?_, ih hl'⟩
      intro y hy
      cases l with
      | nil =>
        simp [insertLess] at hy
        subst hy
        exact h2 a b hc
      | cons c l' =>
        cases hc2 : less a c with
        | true =>
          simp [insertLess, hc2] at hy
          subst hy
          exact h2 a b hc
        | false =>
          simp [insertLess, hc2] at hy
          subst hy
          exact (List.chain'_cons'.mp hl).1 c (by simp)

theorem chain'_sortLess {α : Type} (less : α → α → Bool) (R : α → α → Prop)
    (h1 : ∀ a b, less a b = true → R a b) (h2 : ∀ a b, less a b = false → R b a)
    (l : List α) : (sortLess less l).Chain' R := by
  induction l with
  | nil => simp [sortLess]
  | cons a l ih => exact chain'_insertLess less R h1 h2 a (sortLess less l) ih

theorem sortFiles_perm {α : Type} (keyOf : α → String) (lmOf : α → Int)
    (strat : SortStrategy) (l : List α) :
    (SortStrategy.sortFiles keyOf lmOf strat l).Perm l := by
  cases strat with
  | noOp => exact List.Perm.refl l
  | byKey asc => exact perm_sortLess _ l
  | byLastModified asc => exact perm_sortLess _ l

theorem charListLt_asymm : ∀ x y : List Char, charListLt x y = true → charListLt y x = false := by
  intro x
  induction x with
  | nil =>
    intro y h
    cases y with
    | nil => simp [charListLt] at h
    | cons b bs => simp [charListLt]
  | cons a as ih =>
    intro y h
    cases y with
    | nil => simp [charListLt] at h
    | cons b bs =>
      simp only [charListLt] at h ⊢
      by_cases h1 : a.toNat < b.toNat
      · have h2 : ¬ b.toNat < a.toNat := by omega
        simp [h1, h2]
      · by_cases h2 : b.toNat < a.toNat
        · simp [h1, h2] at h
        · simp only [h1, h2, if_false] at h ⊢
          exact ih bs h

/-! ## Claim theorems -/

/-- C7: decoding a sort parameter maps `""` to the no-op strategy; a
one-character value (missing criterion) is an invalid-parameter error;
any leading character other than `+`/`-` is an invalid-parameter error;
an unrecognized criterion after a valid marker is an invalid-parameter
error (never a silent no-op fallback); and every strategy's encoded
parameter decodes back to that strategy. -/
theorem sort_param_decode_encode :
    (createSortStrategy "" = Except.ok SortStrategy.noOp)
    ∧ (∀ c : Char, createSortStrategy (String.mk [c]) = Except.error EntError.invalidParam)
    ∧ (∀ (c : Char) (rest : List Char), c ≠ '+' → c ≠ '-' →
        createSortStrategy (String.mk (c :: rest)) = Except.error EntError.invalidParam)
    ∧ (∀ rest : List Char, rest ≠ [] → String.mk rest ≠ orderKey →
        String.mk rest ≠ orderLastModified →
        createSortStrategy (String.mk ('+' :: rest)) = Except.error EntError.invalidParam
        ∧ createSortStrategy (String.mk ('-' :: rest)) = Except.error EntError.invalidParam)
    ∧ (∀ s : SortStrategy, createSortStrategy s.encodeParam = Except.ok s) := by
  refine ⟨by decide, ?_, ?_, ?_, ?_⟩
  · intro c
    have h0 : String.mk [c] ≠ "" := by
      intro hh
      exact absurd (congrArg String.data hh) (by simp)
    simp only [createSortStrategy]
    rw [if_neg h0]
    simp
  · intro c rest hp hm
    have h0 : String.mk (c :: rest) ≠ "" := by
      intro hh
      exact absurd (congrArg String.data hh) (by simp)
    simp only [createSortStrategy]
    rw [if_neg h0]
    simp [orderAscending, orderDescending, String.ext_iff, hp, hm]
  · intro rest hne hk hlm
    simp only [orderKey] at hk
    simp only [orderLastModified] at hlm
    constructor
    · have h0 : String.mk ('+' :: rest) ≠ "" := by
        intro hh
        exact absurd (congrArg String.data hh) (by simp)
      simp only [createSortStrategy]
      rw [if_neg h0]
      simp [criterionStrategy, orderAscending, orderKey, orderLastModified, hk, hlm, hne]
    · have h0 : String.mk ('-' :: rest) ≠ "" := by
        intro hh
        exact absurd (congrArg String.data hh) (by simp)
      simp only [createSortStrategy]
      rw [if_neg h0]
      simp [criterionStrategy, orderAscending, orderDescending, orderKey, orderLastModified,
        hk, hlm, hne]
  · intro s
    cases s with
    | noOp => decide
    | byKey asc => cases asc <;> decide
    | byLastModified asc => cases asc <;> decide

/-- Witness for C7: the decoder rejects a bad marker, a missing
criterion and a bad criterion at concrete inputs, and a concrete
strategy round-trips. -/
theorem sort_param_decode_encode_witness :
    createSortStrategy (String.mk ['*', 'k']) = Except.error EntError.invalidParam
    ∧ createSortStrategy (String.mk ['+']) = Except.error EntError.invalidParam
    ∧ createSortStrategy (String.mk ['+', 'w']) = Except.error EntError.invalidParam
    ∧ createSortStrategy (SortStrategy.byKey false).encodeParam
        = Except.ok (SortStrategy.byKey false) :=
  ⟨sort_param_decode_encode.2.2.1 '*' ['k'] (by decide) (by decide),
   sort_param_decode_encode.2.1 '+',
   (sort_param_decode_encode.2.2.2.1 ['w'] (by decide) (by decide) (by decide)).1,
   sort_param_decode_encode.2.2.2.2 (SortStrategy.byKey false)⟩

/-- C8: sorting by key ascending leaves every adjacent pair with
`key[i] <= key[i+1]` (Go byte order), sorting by key descending leaves
every adjacent pair with `key[i] >= key[i+1]`, and the descending
comparator is exactly `Less(i, j) = (key[i] >= key[j])`, so equal keys
compare as "not less than". -/
theorem sort_by_key_adjacent :
    (∀ (α : Type) (keyOf : α → String) (lmOf : α → Int) (files : List α),
      (SortStrategy.sortFiles keyOf lmOf (SortStrategy.byKey true) files).Chain'
        (fun f g => goStrLe (keyOf f) (keyOf g) = true))
    ∧ (∀ (α : Type) (keyOf : α → String) (lmOf : α → Int) (files : List α),
      (SortStrategy.sortFiles keyOf lmOf (SortStrategy.byKey false) files).Chain'
        (fun f g => goStrGe (keyOf f) (keyOf g) = true))
    ∧ (∀ (α : Type) (keyOf : α → String) (a b : α),
      byKeyLess keyOf false a b = goStrGe (keyOf a) (keyOf b)) := by
  refine ⟨?_, ?_, ?_⟩
  · intro α keyOf lmOf files
    apply chain'_sortLess
    · intro a b hab
      simp only [byKeyLess, if_true, goStrLt] at hab
      simp only [goStrLe, goStrLt, charListLt_asymm _ _ hab, Bool.not_false]
    · intro a b hab
      simp only [byKeyLess, if_true, goStrLt] at hab
      simp only [goStrLe, goStrLt, hab, Bool.not_false]
  · intro α keyOf lmOf files
    apply chain'_sortLess
    · intro a b hab
      simpa only [byKeyLess, Bool.false_eq_true, if_false] using hab
    · intro a b hab
      simp only [byKeyLess, Bool.false_eq_true, if_false, goStrGe, Bool.not_eq_false'] at hab
      simp only [goStrGe, goStrLt, charListLt_asymm _ _ hab, Bool.not_false]
  · intro α keyOf a b
    simp [byKeyLess]

/-- C10: every sort strategy only reorders: for all five strategies the
sorted sequence is a permutation of the input (the no-op strategy is the
identity), and consequently `diskFS.List` with a limit at least the match
count returns exactly (a permutation of) the walked matching handles. -/
theorem sort_is_permutation :
    (∀ (α : Type) (keyOf : α → String) (lmOf : α → Int) (strat : SortStrategy)
        (files : List α),
      (SortStrategy.sortFiles keyOf lmOf strat files).Perm files)
    ∧ (∀ (α : Type) (keyOf : α → String) (lmOf : α → Int) (files : List α),
      SortStrategy.sortFiles keyOf lmOf SortStrategy.noOp files = files)
    ∧ (∀ (root : String) (fsS : FSState) (bucket : Bucket) (pfx : String)
        (limit : Nat) (strat : SortStrategy),
      statKind fsS (goJoin [root, bucket.name]) ≠ StatKind.notExists →
      (listWalkFiles fsS (goJoin [root, bucket.name])
        (goJoin [goJoin [root, bucket.name], pfx])).length ≤ limit →
      ∃ l, diskList root fsS bucket pfx limit strat = Except.ok l ∧
        l.Perm (listWalkFiles fsS (goJoin [root, bucket.name])
          (goJoin [goJoin [root, bucket.name], pfx]))) := by
  refine ⟨fun α keyOf lmOf strat files => sortFiles_perm keyOf lmOf strat files,
    fun α keyOf lmOf files => rfl, ?_⟩
  intro root fsS bucket pfx limit strat hstat hlen
  simp only [diskList, if_neg hstat]
  refine ⟨_, rfl, ?_⟩
  have hperm := sortFiles_perm file.key file.lastModified strat
    (listWalkFiles fsS (goJoin [root, bucket.name])
      (goJoin [goJoin [root, bucket.name], pfx]))
  have hnlt : ¬ limit < (SortStrategy.sortFiles file.key file.lastModified strat
      (listWalkFiles fsS (goJoin [root, bucket.name])
        (goJoin [goJoin [root, bucket.name], pfx]))).length := by
    rw [hperm.length_eq]
    omega
  rw [if_neg hnlt]
  exact hperm

/-- Witness for C10: the permutation claim about `diskFS.List` at a
concrete one-file store. -/
theorem sort_is_permutation_witness :
    statKind ⟨[("r/b/x", ⟨[1], 2⟩)], ["r", "r/b"]⟩
        (goJoin ["r", Bucket.name ⟨0, "b"⟩]) ≠ StatKind.notExists
    ∧ (listWalkFiles ⟨[("r/b/x", ⟨[1], 2⟩)], ["r", "r/b"]⟩
        (goJoin ["r", Bucket.name ⟨0, "b"⟩])
        (goJoin [goJoin ["r", Bucket.name ⟨0, "b"⟩], ""])).length ≤ 10
    ∧ ∃ l, diskList "r" ⟨[("r/b/x", ⟨[1], 2⟩)], ["r", "r/b"]⟩ ⟨0, "b"⟩ "" 10
          (SortStrategy.byKey true) = Except.ok l ∧
        l.Perm (listWalkFiles ⟨[("r/b/x", ⟨[1], 2⟩)], ["r", "r/b"]⟩
          (goJoin ["r", Bucket.name ⟨0, "b"⟩])
          (goJoin [goJoin ["r", Bucket.name ⟨0, "b"⟩], ""])) :=
  ⟨by decide, by decide,
    sort_is_permutation.2.2 "r" ⟨[("r/b/x", ⟨[1], 2⟩)], ["r", "r/b"]⟩ ⟨0, "b"⟩ "" 10
      (SortStrategy.byKey true) (by decide) (by decide)⟩

/-- C2: the digest returned by `Hash()` immediately after a successful
`Create` of content `C` is the SHA-1 digest of `C`, equal to a digest
computed independently over `C` — for the disk engine (whose handle has
absorbed exactly the copied bytes and whose `hashed` counter equals the
file size, so the cached digest is returned) and for the in-memory
engine. -/
theorem hash_after_create_is_sha1 :
    (∀ (root : String) (fsS : FSState) (bucket : Bucket) (key : String)
        (data : List Nat) (tmpRand : String) (now : Int),
      ∃ f, (diskCreate root fsS bucket key data tmpRand now CreateFault.ok).1 = Except.ok f
        ∧ (fileHash f).1 = sha1 data)
    ∧ (∀ (fs : MemoryFS) (bucket : Bucket) (key : String) (data : List Nat) (now : Int),
      ∃ f, (memCreate fs bucket key data now).1 = Except.ok f ∧ memHash f = sha1 data) := by
  constructor
  · intro root fsS bucket key data tmpRand now
    refine ⟨createdFile key data now, rfl, ?_⟩
    simp [fileHash, createdFile]
  · intro fs bucket key data now
    refine ⟨memWrite ⟨[], [], 0, key, now⟩ data, rfl, ?_⟩
    simp [memHash, memWrite]

/-- Counterexample to C3 as stated: in the in-memory implementation,
`Delete` on a key that stores no object (witnessed by `Open` returning
`FileNotFound`) succeeds as a no-op instead of failing with
`FileNotFound`. -/
theorem memory_delete_absent_succeeds :
    memOpen ([(0, [("present", ⟨[7], [7], 1, "present", 3⟩)])] : MemoryFS) ⟨0, "b"⟩ "missing"
        = Except.error EntError.fileNotFound
    ∧ memDelete ([(0, [("present", ⟨[7], [7], 1, "present", 3⟩)])] : MemoryFS) ⟨0, "b"⟩ "missing"
        = (Except.ok (), ([(0, [("present", ⟨[7], [7], 1, "present", 3⟩)])] : MemoryFS)) := by
  exact ⟨by decide, by decide⟩

/-- C3 amended: `Delete` on an absent key fails with `FileNotFound` in
the disk-backed implementation; the in-memory implementation instead
succeeds as a no-op (it returns success and no `Open` observation
changes). -/
theorem delete_absent_behavior :
    (∀ (root : String) (fsS : FSState) (bucket : Bucket) (key : String),
      statKind fsS (pathForFile root bucket key) = StatKind.notExists →
      diskDelete root fsS bucket key = (Except.error EntError.fileNotFound, fsS))
    ∧ (∀ (fs : MemoryFS) (bucket : Bucket) (key : String),
      memOpen fs bucket key = Except.error EntError.fileNotFound →
      (memDelete fs bucket key).1 = Except.ok ()
      ∧ ∀ (b' : Bucket) (k' : String),
          memOpen (memDelete fs bucket key).2 b' k' = memOpen fs b' k') := by
  constructor
  · intro root fsS bucket key h
    simp [diskDelete, h]
  · intro fs bucket key habsent
    cases hb : List.lookup bucket.id fs with
    | none =>
      refine ⟨by simp [memDelete, hb], ?_⟩
      intro b' k'
      simp [memDelete, hb]
    | some m =>
      have hkey : List.lookup key m = none := by
        simp only [memOpen, hb] at habsent
        cases hk : List.lookup key m with
        | none => rfl
        | some f => simp [hk] at habsent
      have herase : eraseKey m key = m := eraseKey_of_lookup_none m key hkey
      refine ⟨by simp [memDelete, hb], ?_⟩
      intro b' k'
      simp only [memDelete, hb, herase]
      by_cases hid : b'.id = bucket.id
      · have hup : List.lookup b'.id (upsertEntry fs bucket.id m) = some m := by
          rw [hid]
          exact lookup_upsert_self fs bucket.id m
        have hfs : List.lookup b'.id fs = some m := by rw [hid]; exact hb
        simp [memOpen, hup, hfs]
      · have hup : List.lookup b'.id (upsertEntry fs bucket.id m) = List.lookup b'.id fs :=
          lookup_upsert_ne fs bucket.id m b'.id hid
        simp [memOpen, hup]

/-- Witness for C3 (amended) at concrete states: the disk engine rejects a
missing key with `FileNotFound`, the in-memory engine accepts it and
changes nothing. -/
theorem delete_absent_behavior_witness :
    statKind ⟨[("r/b/x", ⟨[1], 2⟩)], ["r", "r/b"]⟩
        (pathForFile "r" ⟨0, "b"⟩ "nope") = StatKind.notExists
    ∧ diskDelete "r" ⟨[("r/b/x", ⟨[1], 2⟩)], ["r", "r/b"]⟩ ⟨0, "b"⟩ "nope"
        = (Except.error EntError.fileNotFound, ⟨[("r/b/x", ⟨[1], 2⟩)], ["r", "r/b"]⟩)
    ∧ memOpen ([(0, [("x", ⟨[1], [1], 1, "x", 2⟩)])] : MemoryFS) ⟨0, "b"⟩ "nope"
        = Except.error EntError.fileNotFound
    ∧ (memDelete ([(0, [("x", ⟨[1], [1], 1, "x", 2⟩)])] : MemoryFS) ⟨0, "b"⟩ "nope").1
        = Except.ok ()
    ∧ memOpen (memDelete ([(0, [("x", ⟨[1], [1], 1, "x", 2⟩)])] : MemoryFS) ⟨0, "b"⟩ "nope").2
          ⟨0, "b"⟩ "x"
        = memOpen ([(0, [("x", ⟨[1], [1], 1, "x", 2⟩)])] : MemoryFS) ⟨0, "b"⟩ "x" :=
  ⟨by decide,
   delete_absent_behavior.1 "r" ⟨[("r/b/x", ⟨[1], 2⟩)], ["r", "r/b"]⟩ ⟨0, "b"⟩ "nope" (by decide),
   by decide,
   (delete_absent_behavior.2 ([(0, [("x", ⟨[1], [1], 1, "x", 2⟩)])] : MemoryFS) ⟨0, "b"⟩ "nope"
     (by decide)).1,
   (delete_absent_behavior.2 ([(0, [("x", ⟨[1], [1], 1, "x", 2⟩)])] : MemoryFS) ⟨0, "b"⟩ "nope"
     (by decide)).2 ⟨0, "b"⟩ "x"⟩

/-- C9: `diskFS.Open` fails with `FileNotFound` both when no regular file
exists at the key's path (stat reports `IsNotExist`) and when the path is
a directory (an interior node of the key hierarchy). -/
theorem open_absent_or_directory_not_found
    (root : String) (fsS : FSState) (bucket : Bucket) (key : String) :
    (List.lookup (pathForFile root bucket key) fsS.files = none →
      fsS.dirs.contains (pathForFile root bucket key) = false →
      diskOpen root fsS bucket key = Except.error EntError.fileNotFound)
    ∧ (List.lookup (pathForFile root bucket key) fsS.files = none →
      fsS.dirs.contains (pathForFile root bucket key) = true →
      diskOpen root fsS bucket key = Except.error EntError.fileNotFound) := by
  constructor <;> intro h1 h2 <;> simp [diskOpen, h1, h2]

/-- Witness for C9: a missing key and a key that names a directory, both
rejected with `FileNotFound` at a concrete store. -/
theorem open_absent_or_directory_not_found_witness :
    (List.lookup (pathForFile "r" ⟨0, "b"⟩ "zz")
        (FSState.files ⟨[("r/b/a/1", ⟨[1], 2⟩)], ["r", "r/b", "r/b/a"]⟩) = none
      ∧ (FSState.dirs ⟨[("r/b/a/1", ⟨[1], 2⟩)], ["r", "r/b", "r/b/a"]⟩).contains
          (pathForFile "r" ⟨0, "b"⟩ "zz") = false
      ∧ diskOpen "r" ⟨[("r/b/a/1", ⟨[1], 2⟩)], ["r", "r/b", "r/b/a"]⟩ ⟨0, "b"⟩ "zz"
          = Except.error EntError.fileNotFound)
    ∧ (List.lookup (pathForFile "r" ⟨0, "b"⟩ "a")
        (FSState.files ⟨[("r/b/a/1", ⟨[1], 2⟩)], ["r", "r/b", "r/b/a"]⟩) = none
      ∧ (FSState.dirs ⟨[("r/b/a/1", ⟨[1], 2⟩)], ["r", "r/b", "r/b/a"]⟩).contains
          (pathForFile "r" ⟨0, "b"⟩ "a") = true
      ∧ diskOpen "r" ⟨[("r/b/a/1", ⟨[1], 2⟩)], ["r", "r/b", "r/b/a"]⟩ ⟨0, "b"⟩ "a"
          = Except.error EntError.fileNotFound) :=
  ⟨⟨by decide, by decide,
    (open_absent_or_directory_not_found "r" ⟨[("r/b/a/1", ⟨[1], 2⟩)], ["r", "r/b", "r/b/a"]⟩
      ⟨0, "b"⟩ "zz").1 (by decide) (by decide)⟩,
   ⟨by decide, by decide,
    (open_absent_or_directory_not_found "r" ⟨[("r/b/a/1", ⟨[1], 2⟩)], ["r", "r/b", "r/b/a"]⟩
      ⟨0, "b"⟩ "a").2 (by decide) (by decide)⟩⟩

/-- The `Create` faults that strike during the temporary write (directory
creation, temp-file creation, copying the source) or during the rename —
i.e. before the destination is published. -/
def IsEarlyCreateFault (fault : CreateFault) : Prop :=
  fault = CreateFault.mkdirFail ∨ fault = CreateFault.tempFail
    ∨ (∃ n, fault = CreateFault.copyFail n) ∨ fault = CreateFault.renameFail

/-- C1: if `Create` fails during the temporary write or during the
rename, it returns an error, the object stored under the destination key
is unchanged (no partially written or renamed object is published), and a
subsequent `Open` still yields the prior content.  The two freshness
hypotheses are `ioutil.TempFile`'s contract: the chosen temporary name is
a fresh file distinct from the destination. -/
theorem create_failure_preserves_destination
    (root : String) (fsS : FSState) (bucket : Bucket) (key : String)
    (data : List Nat) (tmpRand : String) (now : Int) (fault : CreateFault)
    (hfault : IsEarlyCreateFault fault)
    (hfresh : List.lookup (goJoin [root, bucket.name] ++ "/pending-" ++ tmpRand)
      fsS.files = none)
    (hne : goJoin [root, bucket.name] ++ "/pending-" ++ tmpRand ≠ pathForFile root bucket key) :
    (∃ e, (diskCreate root fsS bucket key data tmpRand now fault).1 = Except.error e)
    ∧ List.lookup (pathForFile root bucket key)
        (diskCreate root fsS bucket key data tmpRand now fault).2.files
      = List.lookup (pathForFile root bucket key) fsS.files
    ∧ ∀ e, List.lookup (pathForFile root bucket key) fsS.files = some e →
        diskOpen root (diskCreate root fsS bucket key data tmpRand now fault).2 bucket key
          = Except.ok (openedFile key e) := by
  have hopen : ∀ st' : FSState,
      List.lookup (pathForFile root bucket key) st'.files
        = List.lookup (pathForFile root bucket key) fsS.files →
      ∀ e, List.lookup (pathForFile root bucket key) fsS.files = some e →
        diskOpen root st' bucket key = Except.ok (openedFile key e) := by
    intro st' hpres e he
    simp [diskOpen, hpres.trans he]
  obtain h | h | ⟨n, h⟩ | h := hfault <;> subst h
  · exact ⟨⟨_, rfl⟩, rfl, hopen _ rfl⟩
  · exact ⟨⟨_, rfl⟩, rfl, hopen _ rfl⟩
  · have hpres : List.lookup (pathForFile root bucket key)
        (diskCreate root fsS bucket key data tmpRand now (CreateFault.copyFail n)).2.files
        = List.lookup (pathForFile root bucket key) fsS.files := by
      simp only [diskCreate]
      exact lookup_upsert_ne _ _ _ _ (Ne.symm hne)
    exact ⟨⟨_, rfl⟩, hpres, hopen _ hpres⟩
  · have hpres : List.lookup (pathForFile root bucket key)
        (diskCreate root fsS bucket key data tmpRand now CreateFault.renameFail).2.files
        = List.lookup (pathForFile root bucket key) fsS.files := by
      simp only [diskCreate]
      exact lookup_upsert_ne _ _ _ _ (Ne.symm hne)
    exact ⟨⟨_, rfl⟩, hpres, hopen _ hpres⟩

/-- Witness for C1: a failed rename over an existing object at a concrete
store leaves the destination's content intact and `Open` still returns
it. -/
theorem create_failure_preserves_destination_witness :
    IsEarlyCreateFault CreateFault.renameFail
    ∧ List.lookup (goJoin ["r", Bucket.name ⟨0, "b"⟩] ++ "/pending-" ++ "x")
        (FSState.files ⟨[("r/b/k", ⟨[9], 5⟩)], ["r", "r/b"]⟩) = none
    ∧ ((∃ e, (diskCreate "r" ⟨[("r/b/k", ⟨[9], 5⟩)], ["r", "r/b"]⟩ ⟨0, "b"⟩ "k"
          [1, 2] "x" 8 CreateFault.renameFail).1 = Except.error e)
      ∧ List.lookup (pathForFile "r" ⟨0, "b"⟩ "k")
          (diskCreate "r" ⟨[("r/b/k", ⟨[9], 5⟩)], ["r", "r/b"]⟩ ⟨0, "b"⟩ "k"
            [1, 2] "x" 8 CreateFault.renameFail).2.files
        = List.lookup (pathForFile "r" ⟨0, "b"⟩ "k")
            (FSState.files ⟨[("r/b/k", ⟨[9], 5⟩)], ["r", "r/b"]⟩)
      ∧ ∀ e, List.lookup (pathForFile "r" ⟨0, "b"⟩ "k")
            (FSState.files ⟨[("r/b/k", ⟨[9], 5⟩)], ["r", "r/b"]⟩) = some e →
          diskOpen "r" (diskCreate "r" ⟨[("r/b/k", ⟨[9], 5⟩)], ["r", "r/b"]⟩ ⟨0, "b"⟩ "k"
              [1, 2] "x" 8 CreateFault.renameFail).2 ⟨0, "b"⟩ "k"
            = Except.ok (openedFile "k" e)) :=
  ⟨Or.inr (Or.inr (Or.inr rfl)), by decide,
   create_failure_preserves_destination "r" ⟨[("r/b/k", ⟨[9], 5⟩)], ["r", "r/b"]⟩ ⟨0, "b"⟩ "k"
     [1, 2] "x" 8 CreateFault.renameFail (Or.inr (Or.inr (Or.inr rfl))) (by decide) (by decide)⟩

/-- C5 fails on the code: `listWalk` does not filter the reserved
`pending-` temporary names, so after a `Create` whose copy step failed
(which leaves its temporary file behind), `List` over the bucket returns
a handle for the temporary file.  Evaluated here on the reachable state
produced by that failed `Create` from an empty store. -/
theorem list_exposes_pending_tempfile :
    (∃ e, (diskCreate "r" ⟨[], []⟩ ⟨0, "b"⟩ "k" [1, 2, 3, 4] "42" 7
        (CreateFault.copyFail 3)).1 = Except.error e)
    ∧ diskList "r" (diskCreate "r" ⟨[], []⟩ ⟨0, "b"⟩ "k" [1, 2, 3, 4] "42" 7
          (CreateFault.copyFail 3)).2 ⟨0, "b"⟩ "" 100 SortStrategy.noOp
        = Except.ok [⟨[], 0, "pending-42", 7, [1, 2, 3], 0⟩]
    ∧ strStartsWith (file.key ⟨[], 0, "pending-42", 7, [1, 2, 3], 0⟩) "pending-" = true :=
  ⟨⟨EntError.other "storing failed", by decide⟩, by decide, by decide⟩

/-- The files of a bucket map whose key has the given prefix (the
selection `MemoryFS.List` makes before sorting). -/
def memMatchedFiles (m : List (String × MemoryFile)) (pfx : String) : List MemoryFile :=
  (m.filter (fun kv => strStartsWith kv.1 pfx)).map (fun kv => kv.2)

/-- C6: `List` truncates after sorting.  For the disk engine (bucket
directory present): the result is exactly the first `limit` entries of
the sorted matches; its length is `min limit matchCount`; `limit = 0`
yields an empty result (bucket present or not); the default limit
(`math.MaxUint64`) returns all matches.  The in-memory engine truncates
identically. -/
theorem list_limit_truncation :
    (∀ (root : String) (fsS : FSState) (bucket : Bucket) (pfx : String)
        (limit : Nat) (strat : SortStrategy),
      statKind fsS (goJoin [root, bucket.name]) ≠ StatKind.notExists →
      diskList root fsS bucket pfx limit strat
        = Except.ok ((SortStrategy.sortFiles file.key file.lastModified strat
            (listWalkFiles fsS (goJoin [root, bucket.name])
              (goJoin [goJoin [root, bucket.name], pfx]))).take limit))
    ∧ (∀ (root : String) (fsS : FSState) (bucket : Bucket) (pfx : String)
        (limit : Nat) (strat : SortStrategy) (l : List file),
      statKind fsS (goJoin [root, bucket.name]) ≠ StatKind.notExists →
      diskList root fsS bucket pfx limit strat = Except.ok l →
      l.length = min limit (listWalkFiles fsS (goJoin [root, bucket.name])
        (goJoin [goJoin [root, bucket.name], pfx])).length)
    ∧ (∀ (root : String) (fsS : FSState) (bucket : Bucket) (pfx : String)
        (strat : SortStrategy),
      diskList root fsS bucket pfx 0 strat = Except.ok [])
    ∧ (∀ (root : String) (fsS : FSState) (bucket : Bucket) (pfx : String)
        (strat : SortStrategy),
      statKind fsS (goJoin [root, bucket.name]) ≠ StatKind.notExists →
      (listWalkFiles fsS (goJoin [root, bucket.name])
        (goJoin [goJoin [root, bucket.name], pfx])).length ≤ DefaultLimit →
      diskList root fsS bucket pfx DefaultLimit strat
        = Except.ok (SortStrategy.sortFiles file.key file.lastModified strat
            (listWalkFiles fsS (goJoin [root, bucket.name])
              (goJoin [goJoin [root, bucket.name], pfx]))))
    ∧ (∀ (fs : MemoryFS) (bucket : Bucket) (pfx : String) (limit : Nat)
        (strat : SortStrategy) (m : List (String × MemoryFile)),
      List.lookup bucket.id fs = some m →
      memList fs bucket pfx limit strat
        = Except.ok ((SortStrategy.sortFiles MemoryFile.key MemoryFile.time strat
            (memMatchedFiles m pfx)).take limit)
      ∧ ∀ l, memList fs bucket pfx limit strat = Except.ok l →
          l.length = min limit (memMatchedFiles m pfx).length) := by
  have htake : ∀ (β : Type) (limit : Nat) (xs : List β),
      (if limit < xs.length then xs.take limit else xs) = xs.take limit := by
    intro β limit xs
    by_cases hlt : limit < xs.length
    · rw [if_pos hlt]
    · rw [if_neg hlt]
      exact (List.take_of_length_le (Nat.le_of_not_lt hlt)).symm
  have hdisk : ∀ (root : String) (fsS : FSState) (bucket : Bucket) (pfx : String)
      (limit : Nat) (strat : SortStrategy),
      statKind fsS (goJoin [root, bucket.name]) ≠ StatKind.notExists →
      diskList root fsS bucket pfx limit strat
        = Except.ok ((SortStrategy.sortFiles file.key file.lastModified strat
            (listWalkFiles fsS (goJoin [root, bucket.name])
              (goJoin [goJoin [root, bucket.name], pfx]))).take limit) := by
    intro root fsS bucket pfx limit strat hstat
    simp only [diskList, if_neg hstat, htake]
  refine ⟨hdisk, ?_, ?_, ?_, ?_⟩
  · intro root fsS bucket pfx limit strat l hstat hres
    rw [hdisk root fsS bucket pfx limit strat hstat] at hres
    injection hres with hres
    rw [← hres, List.length_take,
      (sortFiles_perm file.key file.lastModified strat _).length_eq]
  · intro root fsS bucket pfx strat
    by_cases hstat : statKind fsS (goJoin [root, bucket.name]) = StatKind.notExists
    · simp only [diskList, if_pos hstat]
    · rw [hdisk root fsS bucket pfx 0 strat hstat]
      simp
  · intro root fsS bucket pfx strat hstat hlen
    rw [hdisk root fsS bucket pfx DefaultLimit strat hstat]
    rw [List.take_of_length_le]
    rw [(sortFiles_perm file.key file.lastModified strat _).length_eq]
    exact hlen
  · intro fs bucket pfx limit strat m hb
    have hmem : memList fs bucket pfx limit strat
        = Except.ok ((SortStrategy.sortFiles MemoryFile.key MemoryFile.time strat
            (memMatchedFiles m pfx)).take limit) := by
      simp only [memList, hb, memMatchedFiles, htake]
    refine ⟨hmem, ?_⟩
    intro l hres
    rw [hmem] at hres
    injection hres with hres
    rw [← hres, List.length_take,
      (sortFiles_perm MemoryFile.key MemoryFile.time strat _).length_eq]

/-- Witness for C6 at a concrete two-file store: limit 1 truncates the
sorted listing to one entry, limit 0 yields nothing, the default limit
yields everything. -/
theorem list_limit_truncation_witness :
    statKind ⟨[("r/b/x", ⟨[1], 2⟩), ("r/b/y", ⟨[2], 3⟩)], ["r", "r/b"]⟩
        (goJoin ["r", Bucket.name ⟨0, "b"⟩]) ≠ StatKind.notExists
    ∧ diskList "r" ⟨[("r/b/x", ⟨[1], 2⟩), ("r/b/y", ⟨[2], 3⟩)], ["r", "r/b"]⟩ ⟨0, "b"⟩ "" 1
        (SortStrategy.byKey true)
      = Except.ok ((SortStrategy.sortFiles file.key file.lastModified (SortStrategy.byKey true)
          (listWalkFiles ⟨[("r/b/x", ⟨[1], 2⟩), ("r/b/y", ⟨[2], 3⟩)], ["r", "r/b"]⟩
            (goJoin ["r", Bucket.name ⟨0, "b"⟩])
            (goJoin [goJoin ["r", Bucket.name ⟨0, "b"⟩], ""]))).take 1)
    ∧ diskList "r" ⟨[("r/b/x", ⟨[1], 2⟩), ("r/b/y", ⟨[2], 3⟩)], ["r", "r/b"]⟩ ⟨0, "b"⟩ "" 0
        (SortStrategy.byKey true) = Except.ok []
    ∧ diskList "r" ⟨[("r/b/x", ⟨[1], 2⟩), ("r/b/y", ⟨[2], 3⟩)], ["r", "r/b"]⟩ ⟨0, "b"⟩ ""
        DefaultLimit (SortStrategy.byKey true)
      = Except.ok (SortStrategy.sortFiles file.key file.lastModified (SortStrategy.byKey true)
          (listWalkFiles ⟨[("r/b/x", ⟨[1], 2⟩), ("r/b/y", ⟨[2], 3⟩)], ["r", "r/b"]⟩
            (goJoin ["r", Bucket.name ⟨0, "b"⟩])
            (goJoin [goJoin ["r", Bucket.name ⟨0, "b"⟩], ""])))
    ∧ (memList ([(0, [("x", ⟨[1], [1], 1, "x", 2⟩)])] : MemoryFS) ⟨0, "b"⟩ "" 0
        SortStrategy.noOp
      = Except.ok ((SortStrategy.sortFiles MemoryFile.key MemoryFile.time SortStrategy.noOp
          (memMatchedFiles [("x", ⟨[1], [1], 1, "x", 2⟩)] "")).take 0)) :=
  ⟨by decide,
   list_limit_truncation.1 "r" ⟨[("r/b/x", ⟨[1], 2⟩), ("r/b/y", ⟨[2], 3⟩)], ["r", "r/b"]⟩
     ⟨0, "b"⟩ "" 1 (SortStrategy.byKey true) (by decide),
   list_limit_truncation.2.2.1 "r" ⟨[("r/b/x", ⟨[1], 2⟩), ("r/b/y", ⟨[2], 3⟩)], ["r", "r/b"]⟩
     ⟨0, "b"⟩ "" (SortStrategy.byKey true),
   list_limit_truncation.2.2.2.1 "r"
     ⟨[("r/b/x", ⟨[1], 2⟩), ("r/b/y", ⟨[2], 3⟩)], ["r", "r/b"]⟩ ⟨0, "b"⟩ ""
     (SortStrategy.byKey true) (by decide) (by decide),
   (list_limit_truncation.2.2.2.2 ([(0, [("x", ⟨[1], [1], 1, "x", 2⟩)])] : MemoryFS) ⟨0, "b"⟩
     "" 0 SortStrategy.noOp [("x", ⟨[1], [1], 1, "x", 2⟩)] (by decide)).1⟩

theorem strStartsWith_append_cancel (x a b : String) :
    strStartsWith (x ++ a) (x ++ b) = strStartsWith a b := by
  have hiff : ∀ u v : Bool, (u = true ↔ v = true) → u = v := by decide
  apply hiff
  simp only [strStartsWith, String.data_append]
  constructor
  · intro h
    exact List.isPrefixOf_iff_prefix.mpr
      ((List.prefix_append_right_inj x.data).mp (List.isPrefixOf_iff_prefix.mp h))
  · intro h
    exact List.isPrefixOf_iff_prefix.mpr
      ((List.prefix_append_right_inj x.data).mpr (List.isPrefixOf_iff_prefix.mp h))

theorem stripLeading_append (p k : String) : stripLeading (p ++ k) p = k := by
  have hpre : strStartsWith (p ++ k) p = true := by
    simp only [strStartsWith, String.data_append]
    exact List.isPrefixOf_iff_prefix.mpr ⟨k.data, rfl⟩
  simp only [stripLeading, hpre, if_true, String.data_append]
  rw [List.drop_left]

theorem strStartsWith_exists (s p : String) (h : strStartsWith s p = true) :
    ∃ k : String, s = p ++ k := by
  obtain ⟨t, ht⟩ := List.isPrefixOf_iff_prefix.mp h
  refine ⟨String.mk t, ?_⟩
  cases s with
  | mk sdata =>
    cases p with
    | mk pdata => exact congrArg String.mk ht.symm

theorem strStartsWith_empty (s : String) : strStartsWith s "" = true := by
  simp [strStartsWith]

/-- The handles of the bucket's files whose key (path relative to the
bucket directory) starts with the given prefix — the selection the spec
describes for `List`. -/
def diskMatchedByKey (fsS : FSState) (bucketDir pfx : String) : List file :=
  (fsS.files.filter (fun kv =>
    strStartsWith kv.1 (bucketDir ++ "/")
      && strStartsWith (stripLeading kv.1 (bucketDir ++ "/")) pfx)).map
    (fileOfEntry bucketDir)

/-- Counterexample to C4 as stated: `diskFS.List` matches paths against
`filepath.Join(bucketDir, prefix)`, and `Join` strips a trailing
separator, so with stored keys `a/1` and `ab` the prefix `"a/"` also
returns the non-matching key `ab`. -/
theorem disk_list_trailing_slash_matches_sibling :
    diskList "r" ⟨[("r/b/a/1", ⟨[1], 1⟩), ("r/b/ab", ⟨[2], 2⟩)], ["r", "r/b", "r/b/a"]⟩
        ⟨0, "b"⟩ "a/" 10 SortStrategy.noOp
      = Except.ok [⟨[], 0, "a/1", 1, [1], 0⟩, ⟨[], 0, "ab", 2, [2], 0⟩]
    ∧ strStartsWith "ab" "a/" = false :=
  ⟨by decide, by decide⟩

/-- C4 amended: the in-memory `List` returns exactly the stored files
whose key starts with P, for every P, and an absent bucket yields an
empty result.  The disk `List` walks paths and matches them against
`filepath.Join(bucketDir, P)`, so it returns exactly the keys starting
with P whenever that join is plain concatenation (in particular for any
cleaned P without a trailing separator) and for the empty P; a missing
bucket directory yields an empty result, not an error.  (For a P that
`Join` rewrites — e.g. a trailing `/` — sibling keys sharing the cleaned
prefix are also returned, per the counterexample.) -/
theorem list_matches_exactly_amended :
    (∀ (fs : MemoryFS) (bucket : Bucket) (pfx : String) (limit : Nat)
        (strat : SortStrategy) (m : List (String × MemoryFile)),
      List.lookup bucket.id fs = some m →
      (memMatchedFiles m pfx).length ≤ limit →
      ∃ l, memList fs bucket pfx limit strat = Except.ok l
        ∧ l.Perm (memMatchedFiles m pfx))
    ∧ (∀ (fs : MemoryFS) (bucket : Bucket) (pfx : String) (limit : Nat)
        (strat : SortStrategy),
      List.lookup bucket.id fs = none →
      memList fs bucket pfx limit strat = Except.ok [])
    ∧ (∀ (root : String) (fsS : FSState) (bucket : Bucket) (pfx : String)
        (limit : Nat) (strat : SortStrategy),
      statKind fsS (goJoin [root, bucket.name]) ≠ StatKind.notExists →
      goJoin [goJoin [root, bucket.name], pfx]
        = goJoin [root, bucket.name] ++ "/" ++ pfx →
      (diskMatchedByKey fsS (goJoin [root, bucket.name]) pfx).length ≤ limit →
      ∃ l, diskList root fsS bucket pfx limit strat = Except.ok l
        ∧ l.Perm (diskMatchedByKey fsS (goJoin [root, bucket.name]) pfx))
    ∧ (∀ (root : String) (fsS : FSState) (bucket : Bucket) (limit : Nat)
        (strat : SortStrategy),
      statKind fsS (goJoin [root, bucket.name]) ≠ StatKind.notExists →
      goJoin [goJoin [root, bucket.name], ""] = goJoin [root, bucket.name] →
      (diskMatchedByKey fsS (goJoin [root, bucket.name]) "").length ≤ limit →
      ∃ l, diskList root fsS bucket "" limit strat = Except.ok l
        ∧ l.Perm (diskMatchedByKey fsS (goJoin [root, bucket.name]) ""))
    ∧ (∀ (root : String) (fsS : FSState) (bucket : Bucket) (pfx : String)
        (limit : Nat) (strat : SortStrategy),
      statKind fsS (goJoin [root, bucket.name]) = StatKind.notExists →
      diskList root fsS bucket pfx limit strat = Except.ok []) := by
  refine ⟨?_, ?_, ?_, ?_, ?_⟩
  · intro fs bucket pfx limit strat m hb hcount
    have hlist : memList fs bucket pfx limit strat
        = Except.ok (if limit < (SortStrategy.sortFiles MemoryFile.key MemoryFile.time strat
              (memMatchedFiles m pfx)).length
            then (SortStrategy.sortFiles MemoryFile.key MemoryFile.time strat
              (memMatchedFiles m pfx)).take limit
            else SortStrategy.sortFiles MemoryFile.key MemoryFile.time strat
              (memMatchedFiles m pfx)) := by
      simp only [memList, hb, memMatchedFiles]
    rw [hlist]
    refine ⟨_, rfl, ?_⟩
    have hperm := sortFiles_perm MemoryFile.key MemoryFile.time strat (memMatchedFiles m pfx)
    have hnlt : ¬ limit < (SortStrategy.sortFiles MemoryFile.key MemoryFile.time strat
        (memMatchedFiles m pfx)).length := by
      rw [hperm.length_eq]
      omega
    rw [if_neg hnlt]
    exact hperm
  · intro fs bucket pfx limit strat hb
    simp [memList, hb]
  · intro root fsS bucket pfx limit strat hstat hjoin hcount
    have hwalk : listWalkFiles fsS (goJoin [root, bucket.name])
        (goJoin [goJoin [root, bucket.name], pfx])
        = diskMatchedByKey fsS (goJoin [root, bucket.name]) pfx := by
      rw [hjoin]
      unfold listWalkFiles diskMatchedByKey
      congr 1
      apply List.filter_congr
      intro kv _
      cases hu : strStartsWith kv.1 (goJoin [root, bucket.name] ++ "/") with
      | false => simp [hu]
      | true =>
        obtain ⟨k, hk⟩ := strStartsWith_exists kv.1 (goJoin [root, bucket.name] ++ "/") hu
        rw [hk, strStartsWith_append_cancel, stripLeading_append]
    simp only [diskList, if_neg hstat, hwalk]
    refine ⟨_, rfl, ?_⟩
    have hperm := sortFiles_perm file.key file.lastModified strat
      (diskMatchedByKey fsS (goJoin [root, bucket.name]) pfx)
    have hnlt : ¬ limit < (SortStrategy.sortFiles file.key file.lastModified strat
        (diskMatchedByKey fsS (goJoin [root, bucket.name]) pfx)).length := by
      rw [hperm.length_eq]
      omega
    rw [if_neg hnlt]
    exact hperm
  · intro root fsS bucket limit strat hstat hjoin hcount
    have hwalk : listWalkFiles fsS (goJoin [root, bucket.name])
        (goJoin [goJoin [root, bucket.name], ""])
        = diskMatchedByKey fsS (goJoin [root, bucket.name]) "" := by
      rw [hjoin]
      unfold listWalkFiles diskMatchedByKey
      congr 1
      apply List.filter_congr
      intro kv _
      cases hu : strStartsWith kv.1 (goJoin [root, bucket.name] ++ "/") with
      | false => simp [hu]
      | true =>
        obtain ⟨k, hk⟩ := strStartsWith_exists kv.1 (goJoin [root, bucket.name] ++ "/") hu
        have hkdir : strStartsWith ((goJoin [root, bucket.name] ++ "/") ++ k)
            (goJoin [root, bucket.name]) = true := by
          simp only [strStartsWith, String.data_append]
          exact List.isPrefixOf_iff_prefix.mpr
            ⟨("/" : String).data ++ k.data, by rw [List.append_assoc]⟩
        rw [hk, stripLeading_append, hkdir, strStartsWith_empty]
    simp only [diskList, if_neg hstat, hwalk]
    refine ⟨_, rfl, ?_⟩
    have hperm := sortFiles_perm file.key file.lastModified strat
      (diskMatchedByKey fsS (goJoin [root, bucket.name]) "")
    have hnlt : ¬ limit < (SortStrategy.sortFiles file.key file.lastModified strat
        (diskMatchedByKey fsS (goJoin [root, bucket.name]) "")).length := by
      rw [hperm.length_eq]
      omega
    rw [if_neg hnlt]
    exact hperm
  · intro root fsS bucket pfx limit strat hstat
    simp [diskList, hstat]

/-- Witness for C4 (amended) at concrete stores: the memory engine lists
exactly the keys with prefix `"a"`, and the disk engine lists exactly the
keys with (non-rewritten) prefix `"a"` and with the empty prefix. -/
theorem list_matches_exactly_amended_witness :
    (∃ l, memList ([(0, [("a/1", ⟨[1], [1], 1, "a/1", 2⟩), ("z", ⟨[2], [2], 1, "z", 3⟩)])] :
          MemoryFS) ⟨0, "b"⟩ "a" 10 SortStrategy.noOp = Except.ok l
      ∧ l.Perm (memMatchedFiles
          [("a/1", ⟨[1], [1], 1, "a/1", 2⟩), ("z", ⟨[2], [2], 1, "z", 3⟩)] "a"))
    ∧ (∃ l, diskList "r" ⟨[("r/b/a/1", ⟨[1], 1⟩), ("r/b/z", ⟨[2], 2⟩)], ["r", "r/b", "r/b/a"]⟩
          ⟨0, "b"⟩ "a" 10 SortStrategy.noOp = Except.ok l
      ∧ l.Perm (diskMatchedByKey
          ⟨[("r/b/a/1", ⟨[1], 1⟩), ("r/b/z", ⟨[2], 2⟩)], ["r", "r/b", "r/b/a"]⟩
          (goJoin ["r", Bucket.name ⟨0, "b"⟩]) "a"))
    ∧ (∃ l, diskList "r" ⟨[("r/b/a/1", ⟨[1], 1⟩), ("r/b/z", ⟨[2], 2⟩)], ["r", "r/b", "r/b/a"]⟩
          ⟨0, "b"⟩ "" 10 SortStrategy.noOp = Except.ok l
      ∧ l.Perm (diskMatchedByKey
          ⟨[("r/b/a/1", ⟨[1], 1⟩), ("r/b/z", ⟨[2], 2⟩)], ["r", "r/b", "r/b/a"]⟩
          (goJoin ["r", Bucket.name ⟨0, "b"⟩]) ""))
    ∧ diskList "r" ⟨[], []⟩ ⟨0, "b"⟩ "a" 10 SortStrategy.noOp = Except.ok [] :=
  ⟨list_matches_exactly_amended.1
     ([(0, [("a/1", ⟨[1], [1], 1, "a/1", 2⟩), ("z", ⟨[2], [2], 1, "z", 3⟩)])] : MemoryFS)
     ⟨0, "b"⟩ "a" 10 SortStrategy.noOp
     [("a/1", ⟨[1], [1], 1, "a/1", 2⟩), ("z", ⟨[2], [2], 1, "z", 3⟩)] (by decide) (by decide),
   list_matches_exactly_amended.2.2.1 "r"
     ⟨[("r/b/a/1", ⟨[1], 1⟩), ("r/b/z", ⟨[2], 2⟩)], ["r", "r/b", "r/b/a"]⟩ ⟨0, "b"⟩ "a" 10
     SortStrategy.noOp (by decide) (by decide) (by decide),
   list_matches_exactly_amended.2.2.2.1 "r"
     ⟨[("r/b/a/1", ⟨[1], 1⟩), ("r/b/z", ⟨[2], 2⟩)], ["r", "r/b", "r/b/a"]⟩ ⟨0, "b"⟩ 10
     SortStrategy.noOp (by decide) (by decide) (by decide),
   list_matches_exactly_amended.2.2.2.2 "r" ⟨[], []⟩ ⟨0, "b"⟩ "a" 10 SortStrategy.noOp
     (by decide)⟩
